import Mathlib

/-
Verification of the catalog-sync core in addtoshopify.py against its
natural-language specification.

The Python source is shallowly embedded: every function below mirrors one
Python function (names are kept), machine floats are modelled by exact
rationals, global mutable state is passed explicitly, and the network is
modelled by oracle parameters describing the outcomes of the outbound
requests.  All definitions are executable.
-/

/-! ## Configuration constants (the CONFIG dict) -/

/-- CONFIG["BASE_PRICE_INCREASE"] = 1.075 -/
def BASE_PRICE_INCREASE : ℚ := 1075 / 1000

/-- CONFIG["PRICE_ROUNDING"] = 0.99 -/
def PRICE_ROUNDING : ℚ := 99 / 100

/-- CONFIG["CACHE_TTL"] = 300 seconds -/
def CACHE_TTL : ℚ := 300

/-- CONFIG["INVENTORY_DEFAULT"] = 1000 -/
def INVENTORY_DEFAULT : ℕ := 1000

/-- CONFIG["BATCH_SIZE"] = 50 -/
def BATCH_SIZE : ℕ := 50

/-! ## Price Transform (calculate_adjusted_price) -/

/-- Python round(x, 2) on exact rationals: round half to even at the second
decimal place. -/
def pyRound2 (q : ℚ) : ℚ :=
  let s := q * 100
  let r : ℤ :=
    if Int.fract s < 1 / 2 then ⌊s⌋
    else if 1 / 2 < Int.fract s then ⌈s⌉
    else if ⌊s⌋ % 2 = 0 then ⌊s⌋ else ⌈s⌉
  (r : ℚ) / 100

/-- Numeric core of calculate_adjusted_price: multiply by the markup factor,
snap to a .99 ending (floor + .99 when the fractional part is below .99,
ceil + .99 otherwise), and round to 2 decimals.  Python float modulo by 1 on
the (positive) increased price equals Int.fract on rationals. -/
def calculate_adjusted_price_num (original_price : ℚ) : ℚ :=
  let increased_price := original_price * BASE_PRICE_INCREASE
  let adjusted_price :=
    if Int.fract increased_price < PRICE_ROUNDING then
      (⌊increased_price⌋ : ℚ) + PRICE_ROUNDING
    else
      (⌈increased_price⌉ : ℚ) + PRICE_ROUNDING
  pyRound2 adjusted_price

/-- The whitespace characters stripped by Python str.strip(). -/
def isPySpace (c : Char) : Bool :=
  c == ' ' || c == '\t' || c == '\n' || c == '\r' || c == '\x0b' || c == '\x0c'

/-- Python str.strip(): drop leading and trailing whitespace. -/
def pyStrip (l : List Char) : List Char :=
  ((l.dropWhile isPySpace).reverse.dropWhile isPySpace).reverse

/-- Python str.replace("€", ""): remove every euro sign. -/
def removeEuro (l : List Char) : List Char :=
  l.filter (fun c => c != '€')

/-- Value of a digit string read in base 10. -/
def digitsVal (l : List Char) : ℕ :=
  l.foldl (fun a c => a * 10 + (c.toNat - 48)) 0

/-- The plain decimal-literal fragment of Python float(...): an optional
sign, digits, and an optional fractional part separated by a single dot.
Strings outside this fragment are treated as parse failures. -/
def parseFloat (l : List Char) : Option ℚ :=
  let sgn : ℚ := match l with
    | '-' :: _ => -1
    | _ => 1
  let l1 : List Char := match l with
    | '-' :: r => r
    | '+' :: r => r
    | _ => l
  let intPart := l1.takeWhile (fun c => c != '.')
  let rest := l1.dropWhile (fun c => c != '.')
  match rest with
  | [] =>
    if intPart ≠ [] ∧ intPart.all Char.isDigit then
      some (sgn * (digitsVal intPart : ℚ))
    else none
  | _ :: fracPart =>
    if (intPart ≠ [] ∨ fracPart ≠ []) ∧ intPart.all Char.isDigit ∧
        fracPart.all Char.isDigit then
      some (sgn * ((digitsVal intPart : ℚ) + (digitsVal fracPart : ℚ) / 10 ^ fracPart.length))
    else none

/-- calculate_adjusted_price on the Union[str, float] input: a string has all
euro signs removed and is stripped before parsing; a parse failure returns the
original input unchanged (the except branch). -/
def calculate_adjusted_price : String ⊕ ℚ → String ⊕ ℚ
  | .inr q => .inr (calculate_adjusted_price_num q)
  | .inl s =>
    match parseFloat (pyStrip (removeEuro s.data)) with
    | some q => .inr (calculate_adjusted_price_num q)
    | none => .inl s

/-! ### Price lemmas -/

lemma pyRound2_int_add_rounding (n : ℤ) :
    pyRound2 ((n : ℚ) + PRICE_ROUNDING) = (n : ℚ) + PRICE_ROUNDING := by
  have hs : ((n : ℚ) + PRICE_ROUNDING) * 100 = ((100 * n + 99 : ℤ) : ℚ) := by
    push_cast [PRICE_ROUNDING]
    ring
  unfold pyRound2
  simp only [hs, Int.fract_intCast, Int.floor_intCast]
  norm_num
  push_cast [PRICE_ROUNDING]
  ring

lemma calculate_adjusted_price_num_eq (q : ℚ) :
    calculate_adjusted_price_num q =
      (if Int.fract (q * BASE_PRICE_INCREASE) < PRICE_ROUNDING then
        (⌊q * BASE_PRICE_INCREASE⌋ : ℚ)
      else (⌈q * BASE_PRICE_INCREASE⌉ : ℚ)) + PRICE_ROUNDING := by
  rw [calculate_adjusted_price_num]
  split <;> rw [pyRound2_int_add_rounding]

lemma fract_int_add_rounding (n : ℤ) :
    Int.fract ((n : ℚ) + PRICE_ROUNDING) = 99 / 100 := by
  rw [Int.fract_int_add,
    Int.fract_eq_self.2
      ⟨(by norm_num [PRICE_ROUNDING] : (0 : ℚ) ≤ PRICE_ROUNDING),
       (by norm_num [PRICE_ROUNDING] : PRICE_ROUNDING < 1)⟩]
  norm_num [PRICE_ROUNDING]

lemma fract_calculate_adjusted_price_num (q : ℚ) :
    Int.fract (calculate_adjusted_price_num q) = 99 / 100 := by
  rw [calculate_adjusted_price_num_eq]
  split
  · exact fract_int_add_rounding _
  · exact fract_int_add_rounding _

/-- C1: for positive numeric input the Price Transform multiplies by the
markup factor and snaps to the .99 ending by the floor/ceil rule (the final
2-decimal rounding is the identity there); the fractional part of the result
is exactly 0.99; a string input whose stripped form parses to a positive
number is transformed exactly like that number; and 19.00 yields 20.99. -/
theorem calculate_adjusted_price_spec :
    (∀ q : ℚ, 0 < q →
      calculate_adjusted_price (.inr q) =
        .inr ((if Int.fract (q * BASE_PRICE_INCREASE) < PRICE_ROUNDING then
            (⌊q * BASE_PRICE_INCREASE⌋ : ℚ)
          else (⌈q * BASE_PRICE_INCREASE⌉ : ℚ)) + PRICE_ROUNDING) ∧
      Int.fract (calculate_adjusted_price_num q) = 99 / 100) ∧
    (∀ (s : String) (q : ℚ),
      parseFloat (pyStrip (removeEuro s.data)) = some q → 0 < q →
      calculate_adjusted_price (.inl s) = .inr (calculate_adjusted_price_num q)) ∧
    calculate_adjusted_price (.inr 19) = .inr (2099 / 100) := by
  refine ⟨fun q _ => ⟨?_, fract_calculate_adjusted_price_num q⟩, fun s q hp _ => ?_, ?_⟩
  · show Sum.inr (calculate_adjusted_price_num q) = _
    rw [calculate_adjusted_price_num_eq]
  · show (match parseFloat (pyStrip (removeEuro s.data)) with
      | some q => Sum.inr (calculate_adjusted_price_num q)
      | none => Sum.inl s) = _
    rw [hp]
  · show Sum.inr (calculate_adjusted_price_num 19) = _
    norm_num [calculate_adjusted_price_num, pyRound2, BASE_PRICE_INCREASE, PRICE_ROUNDING]
    norm_num [Int.fract]

theorem calculate_adjusted_price_spec_witness :
    calculate_adjusted_price (.inl " €19.00 ") = .inr (calculate_adjusted_price_num 19) ∧
    Int.fract (calculate_adjusted_price_num 19) = 99 / 100 :=
  ⟨calculate_adjusted_price_spec.2.1 " €19.00 " 19
      (by simp [parseFloat, pyStrip, removeEuro, isPySpace, digitsVal])
      (by norm_num),
   (calculate_adjusted_price_spec.1 19 (by norm_num)).2⟩

/-! ### Monotonicity (C9) -/

lemma round99_step_mono {a b : ℚ} (hab : a ≤ b) :
    (if Int.fract a < PRICE_ROUNDING then (⌊a⌋ : ℚ) else (⌈a⌉ : ℚ)) + PRICE_ROUNDING ≤
      (if Int.fract b < PRICE_ROUNDING then (⌊b⌋ : ℚ) else (⌈b⌉ : ℚ)) + PRICE_ROUNDING := by
  have hfl : (⌊a⌋ : ℤ) ≤ ⌊b⌋ := Int.floor_le_floor hab
  by_cases ha : Int.fract a < PRICE_ROUNDING <;>
    by_cases hb : Int.fract b < PRICE_ROUNDING <;>
      simp only [ha, hb, if_pos, if_neg, not_false_iff, add_le_add_iff_right]
  · exact_mod_cast hfl
  · exact_mod_cast le_trans hfl (Int.floor_le_ceil b)
  · -- a is in the ceil branch, b in the floor branch: the floors must differ
    have hne : ⌊a⌋ ≠ ⌊b⌋ := by
      intro he
      have h1 : Int.fract a ≤ Int.fract b := by
        simp only [Int.fract]
        rw [he]
        linarith
      exact ha (lt_of_le_of_lt h1 hb)
    have hlt : ⌊a⌋ < ⌊b⌋ := lt_of_le_of_ne hfl hne
    have hc : (⌈a⌉ : ℤ) ≤ ⌊a⌋ + 1 := Int.ceil_le_floor_add_one a
    have : (⌈a⌉ : ℤ) ≤ ⌊b⌋ := le_trans hc hlt
    exact_mod_cast this
  · exact_mod_cast Int.ceil_le_ceil hab

/-- C9: the numeric Price Transform is monotone: 0 < x ≤ y implies
calculate_adjusted_price_num x ≤ calculate_adjusted_price_num y (exact
rational arithmetic, markup factor 1.075). -/
theorem calculate_adjusted_price_num_mono (x y : ℚ) (hx : 0 < x) (hxy : x ≤ y) :
    calculate_adjusted_price_num x ≤ calculate_adjusted_price_num y := by
  rw [calculate_adjusted_price_num_eq, calculate_adjusted_price_num_eq]
  have hmul : x * BASE_PRICE_INCREASE ≤ y * BASE_PRICE_INCREASE := by
    have hpos : (0 : ℚ) ≤ BASE_PRICE_INCREASE := by norm_num [BASE_PRICE_INCREASE]
    exact mul_le_mul_of_nonneg_right hxy hpos
  exact round99_step_mono hmul

theorem calculate_adjusted_price_num_mono_witness :
    calculate_adjusted_price_num 1 ≤ calculate_adjusted_price_num 2 :=
  calculate_adjusted_price_num_mono 1 2 (by norm_num) (by norm_num)

/-! ## HTTP Request Executor (make_shopify_request)

The network is abstracted by an oracle mapping the attempt index (the value
of the retries counter when the attempt is issued) to the outcome of that
attempt: none models a raised requests exception (connection error), and
some r models a received response; raise_for_status turns any response with
status >= 400 (including 429 rate limits) into an exception as well. -/

structure HttpResponse where
  status : ℕ
  retryAfter : Option ℕ
deriving DecidableEq

/-- response.raise_for_status() does not raise exactly when the status is
below 400. -/
def responseOk (r : HttpResponse) : Bool := r.status < 400

/-- Does this attempt outcome end in the except branch of the loop? -/
def attemptFails (o : Option HttpResponse) : Bool :=
  match o with
  | some r => !responseOk r
  | none => true

/-- The while loop of make_shopify_request, with the remaining iteration
budget made structural: budget = max_retries - retries, so the loop guard
retries < max_retries is budget > 0 and the early-exit test
retries + 1 == max_retries is budget = 1.  Returns the Python return value
(the response, or None after exhausting the retries) together with the list
of back-off sleeps time.sleep(2 ** retries) performed. -/
def shopifyRetryLoop (oracle : ℕ → Option HttpResponse) (retries : ℕ) :
    ℕ → Option HttpResponse × List ℕ
  | 0 => (none, [])
  | budget + 1 =>
    match oracle retries with
    | some r =>
      if responseOk r then (some r, [])
      else if budget = 0 then (none, [])
      else
        let rest := shopifyRetryLoop oracle (retries + 1) budget
        (rest.1, 2 ^ (retries + 1) :: rest.2)
    | none =>
      if budget = 0 then (none, [])
      else
        let rest := shopifyRetryLoop oracle (retries + 1) budget
        (rest.1, 2 ^ (retries + 1) :: rest.2)

/-- make_shopify_request(url, method, json_data, max_retries): method and url
determine only the real network call, which the oracle abstracts; the default
max_retries is 3. -/
def make_shopify_request (method : String) (url : String)
    (oracle : ℕ → Option HttpResponse) (max_retries : ℕ) :
    Option HttpResponse × List ℕ :=
  shopifyRetryLoop oracle 0 max_retries

/-- A server that answers every attempt with a 429 rate-limit response
carrying a Retry-After suggestion of 7 seconds. -/
def rateLimitedOracle : ℕ → Option HttpResponse := fun _ => some ⟨429, some 7⟩

/-- A network on which every attempt raises a connection error. -/
def networkFailOracle : ℕ → Option HttpResponse := fun _ => none

/-- Forgetting the Retry-After header of a response. -/
def stripRetryAfter (r : HttpResponse) : HttpResponse := ⟨r.status, none⟩

lemma shopifyRetryLoop_none_of_allFail (oracle : ℕ → Option HttpResponse)
    (h : ∀ n, attemptFails (oracle n) = true) :
    ∀ budget retries, (shopifyRetryLoop oracle retries budget).1 = none := by
  intro budget
  induction budget with
  | zero => intro retries; rfl
  | succ b ih =>
    intro retries
    have hf := h retries
    unfold shopifyRetryLoop
    match ho : oracle retries with
    | some r =>
      have hr : responseOk r = false := by
        have := h retries
        rw [ho] at this
        simpa [attemptFails] using this
      simp only [hr]
      by_cases hb : b = 0
      · simp [hb]
      · simp [hb, ih]
    | none =>
      by_cases hb : b = 0
      · simp [hb]
      · simp [hb, ih]

lemma range_pow_shift (x : ℕ) : ∀ b : ℕ, b ≠ 0 →
    (List.range b).map (fun i => 2 ^ (x + 1 + i)) =
      2 ^ (x + 1) :: (List.range (b - 1)).map (fun i => 2 ^ (x + 1 + 1 + i))
  | 0, h => absurd rfl h
  | b + 1, _ => by
    rw [List.range_succ_eq_map]
    simp only [List.map_cons, List.map_map, Nat.add_zero, Nat.add_sub_cancel]
    congr 1
    apply List.map_congr_left
    intro i _
    simp only [Function.comp_apply]
    congr 1
    omega

lemma shopifyRetryLoop_sleeps_of_allFail (oracle : ℕ → Option HttpResponse)
    (h : ∀ n, attemptFails (oracle n) = true) :
    ∀ budget retries, (shopifyRetryLoop oracle retries budget).2 =
      (List.range (budget - 1)).map (fun i => 2 ^ (retries + 1 + i)) := by
  intro budget
  induction budget with
  | zero => intro retries; rfl
  | succ b ih =>
    intro retries
    unfold shopifyRetryLoop
    match ho : oracle retries with
    | some r =>
      have hr : responseOk r = false := by
        have hfail := h retries
        rw [ho] at hfail
        simpa [attemptFails] using hfail
      simp only [hr, Bool.false_eq_true, if_false]
      by_cases hb : b = 0
      · simp [hb]
      · rw [if_neg hb]
        show 2 ^ (retries + 1) :: (shopifyRetryLoop oracle (retries + 1) b).2 =
          (List.range (b + 1 - 1)).map (fun i => 2 ^ (retries + 1 + i))
        rw [ih (retries + 1), Nat.add_sub_cancel, range_pow_shift retries b hb]
    | none =>
      by_cases hb : b = 0
      · simp [hb]
      · rw [if_neg hb]
        show 2 ^ (retries + 1) :: (shopifyRetryLoop oracle (retries + 1) b).2 =
          (List.range (b + 1 - 1)).map (fun i => 2 ^ (retries + 1 + i))
        rw [ih (retries + 1), Nat.add_sub_cancel, range_pow_shift retries b hb]

/-- C2 counterexample: against a server that always answers 429 with a
suggested Retry-After of 7 seconds, the executor exhausts its retry budget
(3 rate-limit responses consume all 3 attempts and the call returns None)
and the waits performed are the exponential back-offs 2 and 4 seconds; the
suggested 7-second wait is never honoured.  This refutes the claim that a
rate-limit response is retried after the server-suggested wait without
consuming a retry attempt. -/
theorem make_shopify_request_rate_limit_counterexample :
    (make_shopify_request "GET" "https://shop/admin/api/products.json" rateLimitedOracle 3).1
        = none ∧
    (make_shopify_request "GET" "https://shop/admin/api/products.json" rateLimitedOracle 3).2
        = [2, 4] ∧
    7 ∉ (make_shopify_request "GET" "https://shop/admin/api/products.json" rateLimitedOracle 3).2
    := by decide

/-- C2 amended: make_shopify_request has no rate-limit special case.  A 429
response counts against the retry budget exactly like any other failure: with
every attempt rate-limited the call returns None after max_retries attempts,
sleeping the exponential back-off 2^attempt seconds (attempt = 1, ...,
max_retries - 1) rather than any server-suggested duration; moreover the
Retry-After header is never read: erasing it from every response changes
nothing in the control flow, sleeps, or result (beyond the erased field of a
returned response). -/
theorem make_shopify_request_rate_limit_amended :
    (∀ (method url : String) (m : ℕ),
      (make_shopify_request method url rateLimitedOracle m).1 = none ∧
      (make_shopify_request method url rateLimitedOracle m).2 =
        (List.range (m - 1)).map (fun i => 2 ^ (1 + i))) ∧
    (∀ (oracle : ℕ → Option HttpResponse) (retries budget : ℕ),
      shopifyRetryLoop (fun n => (oracle n).map stripRetryAfter) retries budget =
        ((shopifyRetryLoop oracle retries budget).1.map stripRetryAfter,
         (shopifyRetryLoop oracle retries budget).2)) := by
  constructor
  · intro method url m
    have hfail : ∀ n, attemptFails (rateLimitedOracle n) = true := fun n => rfl
    refine ⟨shopifyRetryLoop_none_of_allFail rateLimitedOracle hfail m 0, ?_⟩
    have := shopifyRetryLoop_sleeps_of_allFail rateLimitedOracle hfail m 0
    simpa using this
  · intro oracle retries budget
    induction budget generalizing retries with
    | zero => rfl
    | succ b ih =>
      cases ho : oracle retries with
      | some r =>
        have hok : responseOk (stripRetryAfter r) = responseOk r := rfl
        by_cases hr : responseOk r = true
        · simp [shopifyRetryLoop, ho, Option.map_some', hok, hr]
        · by_cases hb : b = 0
          · simp [shopifyRetryLoop, ho, Option.map_some', hok, hr, hb]
          · simp [shopifyRetryLoop, ho, Option.map_some', hok, hr, hb, ih]
      | none =>
        by_cases hb : b = 0
        · simp [shopifyRetryLoop, ho, Option.map_none', hb]
        · simp [shopifyRetryLoop, ho, Option.map_none', hb, ih]

/-- C7 counterexample: after exhausting its retries the executor returns the
bare None, which carries no method, URL, or failure detail: the results of a
failed POST to one URL and a failed GET to another are one and the same
value, so no function can read the method (or anything else) back off the
returned value.  This refutes the claim that a typed error value carrying
the method, URL, and last failure detail is returned. -/
theorem make_shopify_request_error_counterexample :
    (make_shopify_request "POST" "https://a/products.json" networkFailOracle 3).1 = none ∧
    make_shopify_request "POST" "https://a/products.json" networkFailOracle 3 =
      make_shopify_request "GET" "https://b/inventory.json" networkFailOracle 3 ∧
    ¬ ∃ f : Option HttpResponse × List ℕ → String,
      f (make_shopify_request "POST" "https://a/products.json" networkFailOracle 3) = "POST" ∧
      f (make_shopify_request "GET" "https://b/inventory.json" networkFailOracle 3) = "GET" := by
  refine ⟨by decide, by decide, ?_⟩
  rintro ⟨f, h1, h2⟩
  have he : make_shopify_request "POST" "https://a/products.json" networkFailOracle 3 =
      make_shopify_request "GET" "https://b/inventory.json" networkFailOracle 3 := by decide
  rw [he] at h1
  rw [h1] at h2
  exact absurd h2 (by decide)

/-- C7 amended: on a persistently failing request (network error or any
status >= 400 on every attempt) the executor makes max_retries total
attempts (default 3), sleeping 2^attempt seconds between consecutive
attempts, and then returns None to its caller instead of raising; the
method, URL and failure detail are only logged, not carried by the returned
value. -/
theorem make_shopify_request_exhaustion_amended
    (method url : String) (oracle : ℕ → Option HttpResponse) (m : ℕ)
    (h : ∀ n, attemptFails (oracle n) = true) :
    make_shopify_request method url oracle m =
      (none, (List.range (m - 1)).map (fun i => 2 ^ (1 + i))) := by
  unfold make_shopify_request
  refine Prod.ext ?_ ?_
  · exact shopifyRetryLoop_none_of_allFail oracle h m 0
  · have := shopifyRetryLoop_sleeps_of_allFail oracle h m 0
    simpa using this

theorem make_shopify_request_exhaustion_amended_witness :
    make_shopify_request "PUT" "https://shop/products/1.json" networkFailOracle 3 =
      (none, [2, 4]) := by
  have h := make_shopify_request_exhaustion_amended "PUT" "https://shop/products/1.json"
    networkFailOracle 3 (fun n => rfl)
  rw [h]
  decide

/-! ## Remote Catalog Cache (get_existing_products)

The module-level globals existing_products_cache (initially None) and
last_cache_update (initially 0) are made an explicit state record, and
time.time() an explicit argument.  The fetch argument is the outcome of
get_all_paginated(api_url + "?limit=250"): ok with the fetched product list,
or error when an exception was raised during the fetch. -/

structure RemoteVariant where
  sku : Option String
  inventory_item_id : ℕ
deriving DecidableEq

structure RemoteProduct where
  id : ℕ
  variants : List RemoteVariant
deriving DecidableEq

/-- Python truthiness of the cache global: None and the empty list are both
falsy ("not existing_products_cache"). -/
def cacheFalsy : Option (List RemoteProduct) → Bool
  | none => true
  | some l => l.isEmpty

structure CacheState where
  existing_products_cache : Option (List RemoteProduct)
  last_cache_update : ℚ

structure CacheResult where
  result : Except Unit (List RemoteProduct)
  state : CacheState
  refreshes : ℕ

/-- get_existing_products(force_refresh): refresh when forced, or the cache
is falsy, or the elapsed time exceeds CACHE_TTL; on a fetch exception
re-raise only when the cache is falsy, otherwise fall through and keep
serving the cached list; the timestamp is only advanced on a successful
fetch.  refreshes counts how many refresh attempts the call performed. -/
def get_existing_products (st : CacheState) (current_time : ℚ)
    (force_refresh : Bool) (fetch : Except Unit (List RemoteProduct)) : CacheResult :=
  if force_refresh = true ∨ cacheFalsy st.existing_products_cache = true ∨
      current_time - st.last_cache_update > CACHE_TTL then
    match fetch with
    | .ok ps => ⟨.ok ps, ⟨some ps, current_time⟩, 1⟩
    | .error e =>
      if cacheFalsy st.existing_products_cache = true then ⟨.error e, st, 1⟩
      else ⟨.ok (st.existing_products_cache.getD []), st, 1⟩
  else ⟨.ok (st.existing_products_cache.getD []), st, 0⟩

/-- C6: the cache refreshes exactly when the call is forced, or the cache is
empty (Python-falsy: never populated, or populated with an empty list), or
the elapsed time since the last refresh strictly exceeds the TTL of 300
seconds; with a non-empty cache last refreshed at t = 0, a get() at t = 301
performs exactly one refresh and a get() at t = 299 performs none. -/
theorem get_existing_products_refresh_spec :
    (∀ (st : CacheState) (now : ℚ) (force : Bool)
        (fetch : Except Unit (List RemoteProduct)),
      (get_existing_products st now force fetch).refreshes =
        if force = true ∨ cacheFalsy st.existing_products_cache = true ∨
            now - st.last_cache_update > 300 then 1 else 0) ∧
    (get_existing_products ⟨some [⟨1, []⟩], 0⟩ 301 false (.ok [⟨1, []⟩])).refreshes = 1 ∧
    (get_existing_products ⟨some [⟨1, []⟩], 0⟩ 299 false (.ok [⟨1, []⟩])).refreshes = 0 := by
  refine ⟨fun st now force fetch => ?_, ?_, ?_⟩
  · show (get_existing_products st now force fetch).refreshes = _
    unfold get_existing_products
    rw [show CACHE_TTL = (300 : ℚ) from rfl]
    split
    · cases fetch with
      | ok ps => rfl
      | error e =>
        by_cases hc : cacheFalsy st.existing_products_cache = true <;> simp [hc]
    · rfl
  · norm_num [get_existing_products, cacheFalsy, CACHE_TTL]
  · norm_num [get_existing_products, cacheFalsy, CACHE_TTL]

/-- C8 counterexample: a cache that was populated (it is not None — the
first fetch succeeded, returning an empty product list) does not serve its
stale value on a later failed refresh: because Python tests the cache with
truthiness, the empty-list cache re-raises the fetch failure exactly like a
never-populated cache, refuting the claim that a populated cache always
serves stale data without raising. -/
theorem get_existing_products_stale_counterexample :
    (CacheState.mk (some []) 0).existing_products_cache ≠ none ∧
    (get_existing_products ⟨some [], 0⟩ 10 false (.error ())).result = .error () := by
  constructor
  · simp
  · rfl

/-- C8 amended: when a refresh attempt fails, get() serves the cached stale
data without raising exactly when the cache holds a non-empty product list;
when the cache was never populated or holds an empty list (both Python-falsy)
the failure propagates to the caller.  In every failure case the cache state
(contents and timestamp) is left unchanged. -/
theorem get_existing_products_refresh_failure_amended :
    ∀ (st : CacheState) (now : ℚ) (force : Bool) (e : Unit),
      (get_existing_products st now force (.error e)).result =
        (if cacheFalsy st.existing_products_cache = true then .error e
         else .ok (st.existing_products_cache.getD [])) ∧
      (get_existing_products st now force (.error e)).state = st := by
  intro st now force e
  unfold get_existing_products
  by_cases hc : cacheFalsy st.existing_products_cache = true
  · rw [if_pos (Or.inr (Or.inl hc))]
    simp [hc]
  · by_cases hcond : force = true ∨ cacheFalsy st.existing_products_cache = true ∨
        now - st.last_cache_update > CACHE_TTL
    · rw [if_pos hcond]
      simp [hc]
    · rw [if_neg hcond]
      simp [hc]

/-! ## Local product data model and Product Validator

A Python dict field that may be absent is an Option; the "available" value
may be any Python object, modelled as a proper bool or an arbitrary
non-bool. -/

inductive PyAvail where
  | bool (b : Bool)
  | nonbool
deriving DecidableEq

structure LocalVariant where
  sku : Option String
  price : Option (String ⊕ ℚ)
  available : Option PyAvail
deriving DecidableEq

structure LocalProduct where
  title : Option String
  variants : Option (List LocalVariant)
  published_at : Option String
deriving DecidableEq

/-- validate_product_data: title and variants present, variants a non-empty
list, every variant carrying sku, price and available, and available a
strict bool. -/
def validate_product_data (product : LocalProduct) : Bool :=
  (product.title.isSome && product.variants.isSome) &&
  (match product.variants with
   | none => false
   | some vs =>
     !vs.isEmpty &&
     vs.all (fun v =>
       (v.sku.isSome && v.price.isSome && v.available.isSome) &&
       (match v.available with
        | some (.bool _) => true
        | _ => false)))

/-- Truthiness of variant.get("available", False), as used on the validated
path (a non-bool value is unreachable after validation and a missing field
defaults to False). -/
def availTruthy (v : LocalVariant) : Bool :=
  match v.available with
  | some (.bool b) => b
  | _ => false

/-! ## Sync Orchestrator: end-of-run stale-item deactivation sweep (main)

main() first collects every sku occurring in any brand file into seen_skus,
then walks the freshly refreshed remote catalog and, for every variant whose
sku is truthy (present and non-empty) and not in seen_skus, queues an
inventory update setting availability to 0; the queue is then issued in
bulk_update_inventory batches of BATCH_SIZE. -/

/-- The seen_skus collection loop over all readable brand files. -/
def collect_seen_skus (batches : List (List LocalProduct)) : List String :=
  batches.flatMap (fun products =>
    products.flatMap (fun p => (p.variants.getD []).filterMap (fun v => v.sku)))

def allRemoteVariants (existing : List RemoteProduct) : List RemoteVariant :=
  existing.flatMap (fun p => p.variants)

/-- The stale test "if sku and sku not in seen_skus": a missing or empty sku
is falsy and never stale. -/
def isStale (seen : List String) (v : RemoteVariant) : Bool :=
  match v.sku with
  | some s => !(s == "") && !(seen.contains s)
  | none => false

def staleVariants (seen : List String) (existing : List RemoteProduct) :
    List RemoteVariant :=
  (allRemoteVariants existing).filter (isStale seen)

/-- The disabled_updates list built by the sweep: one
(inventory_item_id, available = 0) entry per stale variant. -/
def disabled_updates (seen : List String) (existing : List RemoteProduct) :
    List (ℕ × ℕ) :=
  (staleVariants seen existing).map (fun v => (v.inventory_item_id, 0))

/-- The slicing loop "for i in range(0, len(l), size): l[i:i+size]", written
with the number of remaining iterations as structural fuel. -/
def pyChunksAux (size : ℕ) : ℕ → List (ℕ × ℕ) → List (List (ℕ × ℕ))
  | 0, _ => []
  | fuel + 1, l =>
    if l.isEmpty then [] else l.take size :: pyChunksAux size fuel (l.drop size)

def pyChunks (l : List (ℕ × ℕ)) (size : ℕ) : List (List (ℕ × ℕ)) :=
  pyChunksAux size l.length l

/-- The batches handed to bulk_update_inventory by the sweep. -/
def sweep_calls (seen : List String) (existing : List RemoteProduct) :
    List (List (ℕ × ℕ)) :=
  pyChunks (disabled_updates seen existing) BATCH_SIZE

/-- All inventory-disable entries issued across the sweep batches. -/
def sweep_issued_updates (seen : List String) (existing : List RemoteProduct) :
    List (ℕ × ℕ) :=
  (sweep_calls seen existing).flatten

lemma pyChunksAux_flatten (size : ℕ) (hsize : size ≠ 0) :
    ∀ (fuel : ℕ) (l : List (ℕ × ℕ)), l.length ≤ fuel →
      (pyChunksAux size fuel l).flatten = l := by
  intro fuel
  induction fuel with
  | zero =>
    intro l hl
    have hnil : l = [] := List.eq_nil_of_length_eq_zero (Nat.le_zero.1 hl)
    simp [hnil, pyChunksAux]
  | succ f ih =>
    intro l hl
    by_cases he : l.isEmpty
    · have hnil : l = [] := List.isEmpty_iff.1 he
      simp [hnil, pyChunksAux]
    · have hne : l ≠ [] := fun hnil => he (by simp [hnil])
      have hlen : 1 ≤ l.length := List.length_pos.2 hne
      rw [pyChunksAux, if_neg (by simpa using he)]
      rw [List.flatten_cons]
      rw [ih (l.drop size) (by rw [List.length_drop]; omega)]
      exact List.take_append_drop size l

lemma sweep_issued_updates_eq (seen : List String) (existing : List RemoteProduct) :
    sweep_issued_updates seen existing = disabled_updates seen existing := by
  unfold sweep_issued_updates sweep_calls pyChunks
  exact pyChunksAux_flatten BATCH_SIZE (by decide) _ _ le_rfl

lemma countP_id_filter_of_nodup (p : RemoteVariant → Bool) (v : RemoteVariant) :
    ∀ l : List RemoteVariant,
      (l.map (fun w => w.inventory_item_id)).Nodup → v ∈ l →
      (l.filter p).countP (fun w => w.inventory_item_id == v.inventory_item_id) =
        if p v then 1 else 0 := by
  intro l
  induction l with
  | nil => intro _ hv; cases hv
  | cons x t ih =>
    intro hnodup hv
    rw [List.map_cons, List.nodup_cons] at hnodup
    rcases List.mem_cons.1 hv with hxv | hvt
    · subst hxv
      have ht0 : (t.filter p).countP
          (fun w => w.inventory_item_id == v.inventory_item_id) = 0 := by
        rw [List.countP_eq_zero]
        intro w hw hbeq
        have hwt : w ∈ t := List.mem_of_mem_filter hw
        have : w.inventory_item_id = v.inventory_item_id := by
          simpa using hbeq
        exact hnodup.1 (this ▸ List.mem_map_of_mem (fun w => w.inventory_item_id) hwt)
      by_cases hp : p v = true
      · rw [List.filter_cons_of_pos hp, List.countP_cons, ht0, if_pos hp]
        simp
      · rw [List.filter_cons_of_neg (by simpa using hp), ht0]
        simp [hp]
    · have hne : (x.inventory_item_id == v.inventory_item_id) = false := by
        have hvm : v.inventory_item_id ∈ t.map (fun w => w.inventory_item_id) :=
          List.mem_map_of_mem (fun w => w.inventory_item_id) hvt
        have hx : x.inventory_item_id ≠ v.inventory_item_id := fun he => hnodup.1 (he ▸ hvm)
        simpa using hx
      have hrec := ih hnodup.2 hvt
      by_cases hp : p x = true
      · rw [List.filter_cons_of_pos hp, List.countP_cons, hrec, hne]
        simp
      · rw [List.filter_cons_of_neg (by simpa using hp), hrec]

/-- C4 amended: in the end-of-run sweep, a remote variant carrying a
non-empty SKU that appears in no local batch is issued exactly one
inventory-disable entry across all sweep batches, and a remote variant whose
SKU appears in some local batch — or whose SKU is missing or empty, an
exception the claim omits — is issued none (stated for snapshots whose
inventory_item_ids are distinct, so that issued entries are attributable). -/
theorem main_stale_sweep_amended (batches : List (List LocalProduct))
    (existing : List RemoteProduct) (v : RemoteVariant)
    (hnodup : ((allRemoteVariants existing).map (fun w => w.inventory_item_id)).Nodup)
    (hv : v ∈ allRemoteVariants existing) :
    (sweep_issued_updates (collect_seen_skus batches) existing).countP
        (fun u => u.1 == v.inventory_item_id) =
      if isStale (collect_seen_skus batches) v then 1 else 0 := by
  rw [sweep_issued_updates_eq]
  unfold disabled_updates staleVariants
  rw [List.countP_map]
  exact countP_id_filter_of_nodup (isStale (collect_seen_skus batches)) v
    (allRemoteVariants existing) hnodup hv

theorem main_stale_sweep_amended_witness :
    (sweep_issued_updates (collect_seen_skus [])
        [⟨1, [⟨some "X", 5⟩]⟩]).countP (fun u => u.1 == 5) = 1 := by
  have h := main_stale_sweep_amended [] [⟨1, [⟨some "X", 5⟩]⟩] ⟨some "X", 5⟩
    (by decide) (by decide)
  have hs : isStale (collect_seen_skus []) (⟨some "X", 5⟩ : RemoteVariant) = true := by decide
  rw [hs] at h
  simpa using h

/-- C4 counterexample: a remote variant whose sku is the empty string has a
SKU that appears in no local batch (there are no local batches at all), yet
the sweep issues zero disable entries for it, not the one entry the claim
demands. -/
theorem main_stale_sweep_counterexample :
    collect_seen_skus [] = [] ∧
    (sweep_issued_updates [] [⟨1, [⟨some "", 7⟩]⟩]).countP (fun u => u.1 == 7) ≠ 1 := by
  exact ⟨rfl, by decide⟩

/-- C10: a remote variant whose sku field is missing or empty is never
issued an inventory-disable entry by the sweep, whatever the collected local
SKU set is (stated for snapshots with distinct inventory_item_ids so that
entries are attributable to variants). -/
theorem main_stale_sweep_empty_sku (seen : List String) (existing : List RemoteProduct)
    (v : RemoteVariant)
    (hnodup : ((allRemoteVariants existing).map (fun w => w.inventory_item_id)).Nodup)
    (hv : v ∈ allRemoteVariants existing)
    (hsku : v.sku = none ∨ v.sku = some "") :
    (v.inventory_item_id, 0) ∉ sweep_issued_updates seen existing := by
  rw [sweep_issued_updates_eq]
  unfold disabled_updates
  intro hmem
  rcases List.mem_map.1 hmem with ⟨w, hw, hweq⟩
  have hwid : w.inventory_item_id = v.inventory_item_id := congrArg Prod.fst hweq
  have hwall : w ∈ allRemoteVariants existing :=
    List.mem_of_mem_filter (by simpa [staleVariants] using hw)
  have hwstale : isStale seen w = true :=
    List.of_mem_filter (by simpa [staleVariants] using hw)
  have hwv : w = v :=
    List.inj_on_of_nodup_map hnodup hwall hv hwid
  subst hwv
  rcases hsku with hs | hs <;> simp [isStale, hs] at hwstale

theorem main_stale_sweep_empty_sku_witness :
    ((7 : ℕ), (0 : ℕ)) ∉
      sweep_issued_updates ["A"] [⟨1, [⟨some "", 7⟩, ⟨some "B", 8⟩]⟩] :=
  main_stale_sweep_empty_sku ["A"] [⟨1, [⟨some "", 7⟩, ⟨some "B", 8⟩]⟩]
    ⟨some "", 7⟩ (by decide) (by decide) (Or.inr rfl)

/-! ## Reconciler (process_product)

The network responses are abstracted by a NetBehavior record: whether the
bulk-inventory POST succeeds, whether the product PUT succeeds, and the
outcome of the product-create POST (the new product id on success).
process_product returns its Python boolean result together with the ordered
list of API calls it issued. -/

/-- The set comprehension product_skus collected from the local variants. -/
def product_skus (vs : List LocalVariant) : List String :=
  vs.filterMap (fun v => v.sku)

/-- Assignment variant_map[sku] = v on the dict modelled as an association
list: overwrite an existing key in place, else append. -/
def dictInsert (m : List (String × RemoteVariant)) (k : String) (v : RemoteVariant) :
    List (String × RemoteVariant) :=
  if m.any (fun kv => kv.1 == k) then
    m.map (fun kv => if kv.1 == k then (k, v) else kv)
  else m ++ [(k, v)]

/-- variant_map.get(sku). -/
def dictGet (m : List (String × RemoteVariant)) (k : String) : Option RemoteVariant :=
  (m.find? (fun kv => kv.1 == k)).map (fun kv => kv.2)

/-- The inner loop over one remote product: collect sku -> variant for every
remote variant whose sku is among the local product_skus. -/
def collectMap (vars : List RemoteVariant) (skus : List String) :
    List (String × RemoteVariant) :=
  vars.foldl (fun acc v =>
    match v.sku with
    | some s => if skus.contains s then dictInsert acc s v else acc
    | none => acc) []

/-- The scan over existing products: the first remote product with any
matching variant is the counterpart and the scan stops (break); the
variant_map holds only matches found on that product. -/
def scanExisting : List RemoteProduct → List String →
    Option (RemoteProduct × List (String × RemoteVariant))
  | [], _ => none
  | p :: rest, skus =>
    let m := collectMap p.variants skus
    if m.isEmpty then scanExisting rest skus else some (p, m)

structure NetBehavior where
  bulkOk : Bool
  putOk : Bool
  postResult : Option ℕ

/-- The fields of the build_product_payload output that the verified claims
observe: the optional product id tag, the title, and the publish timestamp.
A present non-empty published_at string is kept (its ISO-8601 validity is
assumed: the claims never exercise malformed timestamps); a missing or empty
(falsy) one is replaced by the current time. -/
structure ProductPayloadM where
  id : Option ℕ
  title : Option String
  published_at : Option String
deriving DecidableEq

def build_product_payload_m (product : LocalProduct) (now : String) : ProductPayloadM :=
  ⟨none, product.title,
    match product.published_at with
    | some s => if s = "" then some now else some s
    | none => some now⟩

inductive ApiCall where
  | bulkInventory (updates : List (ℕ × ℕ))
  | createProduct (payload : ProductPayloadM)
  | updateProduct (id : ℕ) (payload : ProductPayloadM)
deriving DecidableEq

def isBulkCall : ApiCall → Bool
  | .bulkInventory _ => true
  | _ => false

def isCreateCall : ApiCall → Bool
  | .createProduct _ => true
  | _ => false

def isUpdateCall : ApiCall → Bool
  | .updateProduct _ _ => true
  | _ => false

/-- The inventory_updates list collected on the existing-product branch: one
(inventory_item_id, quantity) entry per local variant whose sku has a match
in the variant_map; quantity is INVENTORY_DEFAULT when available, else 0. -/
def inventory_updates_for (vs : List LocalVariant) (m : List (String × RemoteVariant)) :
    List (ℕ × ℕ) :=
  vs.filterMap (fun v =>
    (v.sku.bind (fun s => dictGet m s)).map (fun ev =>
      (ev.inventory_item_id, if availTruthy v then INVENTORY_DEFAULT else 0)))

/-- The existing-product branch of process_product: bulk-update inventory
for the matched subset (failing fast when the bulk call fails), then, only
when every local variant matched (len(variant_map) == len(variants)), PUT
the full product update tagged with the remote id; otherwise warn and
return False. -/
def reconcile_existing (product : LocalProduct) (existing_product : RemoteProduct)
    (variant_map : List (String × RemoteVariant)) (net : NetBehavior) (now : String) :
    Bool × List ApiCall :=
  if (inventory_updates_for (product.variants.getD []) variant_map).isEmpty then
    if variant_map.length = (product.variants.getD []).length then
      (net.putOk, [ApiCall.updateProduct existing_product.id
        ⟨some existing_product.id, (build_product_payload_m product now).title,
         (build_product_payload_m product now).published_at⟩])
    else (false, [])
  else
    if net.bulkOk then
      if variant_map.length = (product.variants.getD []).length then
        (net.putOk,
          [ApiCall.bulkInventory (inventory_updates_for (product.variants.getD []) variant_map),
           ApiCall.updateProduct existing_product.id
             ⟨some existing_product.id, (build_product_payload_m product now).title,
              (build_product_payload_m product now).published_at⟩])
      else (false,
        [ApiCall.bulkInventory (inventory_updates_for (product.variants.getD []) variant_map)])
    else (false,
      [ApiCall.bulkInventory (inventory_updates_for (product.variants.getD []) variant_map)])

/-- The new-product branch of process_product: skip when no variant is
available; else POST the create and, when the local record had no
published_at key, PUT a follow-up carrying only the id and the current time
(its response is ignored). -/
def reconcile_new (product : LocalProduct) (net : NetBehavior) (now : String) :
    Bool × List ApiCall :=
  if (product.variants.getD []).any availTruthy = false then (false, [])
  else
    match net.postResult with
    | some newId =>
      if product.published_at = none then
        (true, [ApiCall.createProduct (build_product_payload_m product now),
                ApiCall.updateProduct newId ⟨some newId, none, some now⟩])
      else (true, [ApiCall.createProduct (build_product_payload_m product now)])
    | none => (false, [ApiCall.createProduct (build_product_payload_m product now)])

/-- process_product: validate, scan the snapshot for the first remote
counterpart, and dispatch to the matching branch. -/
def process_product (product : LocalProduct) (existing_products : List RemoteProduct)
    (net : NetBehavior) (now : String) : Bool × List ApiCall :=
  if validate_product_data product = true then
    match scanExisting existing_products (product_skus (product.variants.getD [])) with
    | some (existing_product, variant_map) =>
      reconcile_existing product existing_product variant_map net now
    | none => reconcile_new product net now
  else (false, [])

/-! ### Reconciler lemmas -/

lemma dictInsert_keys (m : List (String × RemoteVariant)) (k : String) (v : RemoteVariant) :
    (dictInsert m k v).map Prod.fst =
      if m.any (fun kv => kv.1 == k) then m.map Prod.fst else m.map Prod.fst ++ [k] := by
  unfold dictInsert
  split
  · rw [List.map_map]
    apply List.map_congr_left
    intro kv _
    by_cases hx : (kv.1 == k) = true
    · simp only [Function.comp_apply, if_pos hx]
      exact (eq_of_beq hx).symm
    · simp only [Function.comp_apply, if_neg hx]
  · simp

lemma dictInsert_mem {m : List (String × RemoteVariant)} {k : String} {v : RemoteVariant}
    {kv : String × RemoteVariant} (h : kv ∈ dictInsert m k v) :
    kv ∈ m ∨ kv = (k, v) := by
  unfold dictInsert at h
  split at h
  · rcases List.mem_map.1 h with ⟨kv0, hkv0, heq⟩
    by_cases hx : (kv0.1 == k) = true
    · right
      rw [if_pos hx] at heq
      exact heq.symm
    · left
      rw [if_neg hx] at heq
      exact heq ▸ hkv0
  · rcases List.mem_append.1 h with h1 | h1
    · exact Or.inl h1
    · right
      simpa using h1

lemma collectMap_invariant (skus : List String) (S : List RemoteVariant) :
    ∀ (vars : List RemoteVariant) (acc : List (String × RemoteVariant)),
      (∀ v ∈ vars, v ∈ S) →
      (acc.map Prod.fst).Nodup →
      (∀ kv ∈ acc, kv.1 ∈ skus ∧ kv.2 ∈ S ∧ kv.2.sku = some kv.1) →
      ((vars.foldl (fun acc v =>
          match v.sku with
          | some s => if skus.contains s then dictInsert acc s v else acc
          | none => acc) acc).map Prod.fst).Nodup ∧
      ∀ kv ∈ vars.foldl (fun acc v =>
          match v.sku with
          | some s => if skus.contains s then dictInsert acc s v else acc
          | none => acc) acc, kv.1 ∈ skus ∧ kv.2 ∈ S ∧ kv.2.sku = some kv.1 := by
  intro vars
  induction vars with
  | nil =>
    intro acc _ h1 h2
    exact ⟨h1, h2⟩
  | cons v t ih =>
    intro acc hS h1 h2
    rw [List.foldl_cons]
    have hvS : v ∈ S := hS v (List.mem_cons_self v t)
    have hS2 : ∀ w ∈ t, w ∈ S := fun w hw => hS w (List.mem_cons_of_mem v hw)
    cases hsku : v.sku with
    | none =>
      simp only [hsku]
      exact ih _ hS2 h1 h2
    | some s =>
      simp only [hsku]
      by_cases hc : skus.contains s = true
      · rw [if_pos hc]
        refine ih _ hS2 ?_ ?_
        · by_cases hany : acc.any (fun kv => kv.1 == s) = true
          · rw [dictInsert_keys, if_pos hany]
            exact h1
          · rw [dictInsert_keys, if_neg hany]
            have hs_not : s ∉ acc.map Prod.fst := by
              intro hmem
              rcases List.mem_map.1 hmem with ⟨kv, hkv, hf⟩
              exact hany (List.any_eq_true.2 ⟨kv, hkv, by simp [hf]⟩)
            exact List.Nodup.append h1 (List.nodup_singleton s)
              (fun x hx hxs => hs_not (by rwa [List.mem_singleton.1 hxs] at hx))
        · intro kv hkv
          rcases dictInsert_mem hkv with hin | heq
          · exact h2 kv hin
          · subst heq
            exact ⟨by simpa using hc, hvS, hsku⟩
      · rw [if_neg hc]
        exact ih _ hS2 h1 h2

lemma collectMap_keys_nodup (vars : List RemoteVariant) (skus : List String) :
    ((collectMap vars skus).map Prod.fst).Nodup :=
  (collectMap_invariant skus vars vars [] (fun _ h => h) (by simp) (by simp)).1

lemma collectMap_entries {vars : List RemoteVariant} {skus : List String}
    {kv : String × RemoteVariant} (h : kv ∈ collectMap vars skus) :
    kv.1 ∈ skus ∧ kv.2 ∈ vars ∧ kv.2.sku = some kv.1 :=
  (collectMap_invariant skus vars vars [] (fun _ h => h) (by simp) (by simp)).2 kv h

lemma scanExisting_eq_some {skus : List String} {ep : RemoteProduct}
    {m : List (String × RemoteVariant)} :
    ∀ ps : List RemoteProduct, scanExisting ps skus = some (ep, m) →
      m = collectMap ep.variants skus := by
  intro ps
  induction ps with
  | nil =>
    intro h
    simp [scanExisting] at h
  | cons p rest ih =>
    intro h
    simp only [scanExisting] at h
    split at h
    · exact ih h
    · obtain ⟨hp, hm⟩ := Prod.mk.inj (Option.some.inj h)
      subst hp
      exact hm.symm

lemma dictGet_some_mem {m : List (String × RemoteVariant)} {s : String}
    {rv : RemoteVariant} (h : dictGet m s = some rv) : (s, rv) ∈ m := by
  unfold dictGet at h
  cases hf : m.find? (fun kv => kv.1 == s) with
  | none =>
    rw [hf] at h
    simp at h
  | some kv =>
    rw [hf] at h
    simp only [Option.map_some', Option.some.injEq] at h
    have hmem : kv ∈ m := List.mem_of_find?_eq_some hf
    have hpred := List.find?_some hf
    have h1 : kv.1 = s := by simpa using hpred
    cases kv with
    | mk a b =>
      simp only at h1 h
      subst h1
      subst h
      exact hmem

lemma variant_map_length_lt (vs : List LocalVariant) (vars : List RemoteVariant)
    (v0 : LocalVariant) (s0 : String)
    (hv0 : v0 ∈ vs) (hs0 : v0.sku = some s0)
    (hno : ∀ rv ∈ vars, rv.sku ≠ some s0) :
    (collectMap vars (product_skus vs)).length < vs.length := by
  have hkeys_nodup : ((collectMap vars (product_skus vs)).map Prod.fst).Nodup :=
    collectMap_keys_nodup vars _
  have hs0mem : s0 ∈ product_skus vs := List.mem_filterMap.2 ⟨v0, hv0, hs0⟩
  have hs0keys : s0 ∉ (collectMap vars (product_skus vs)).map Prod.fst := by
    intro hk
    rcases List.mem_map.1 hk with ⟨kv, hkv, hf⟩
    have hp := collectMap_entries hkv
    exact hno kv.2 hp.2.1 (by rw [hp.2.2, hf])
  have hsubs : ∀ x ∈ (collectMap vars (product_skus vs)).map Prod.fst,
      x ∈ product_skus vs := by
    intro x hx
    rcases List.mem_map.1 hx with ⟨kv, hkv, hf⟩
    exact hf ▸ (collectMap_entries hkv).1
  classical
  have h1 : ((collectMap vars (product_skus vs)).map Prod.fst).toFinset.card =
      ((collectMap vars (product_skus vs)).map Prod.fst).length :=
    List.toFinset_card_of_nodup hkeys_nodup
  have hsubF : ((collectMap vars (product_skus vs)).map Prod.fst).toFinset ⊆
      (product_skus vs).toFinset.erase s0 := by
    intro x hx
    rw [List.mem_toFinset] at hx
    rw [Finset.mem_erase]
    exact ⟨fun he => hs0keys (he ▸ hx), List.mem_toFinset.2 (hsubs x hx)⟩
  have h2 := Finset.card_le_card hsubF
  have h3 : ((product_skus vs).toFinset.erase s0).card < (product_skus vs).toFinset.card :=
    Finset.card_erase_lt_of_mem (List.mem_toFinset.2 hs0mem)
  have h4 : (product_skus vs).toFinset.card ≤ (product_skus vs).length :=
    List.toFinset_card_le _
  have h5 : (product_skus vs).length ≤ vs.length := List.length_filterMap_le _ _
  have h6 : (collectMap vars (product_skus vs)).length =
      ((collectMap vars (product_skus vs)).map Prod.fst).length :=
    (List.length_map _ _).symm
  omega

lemma process_product_eq_existing (product : LocalProduct)
    (existing : List RemoteProduct) (net : NetBehavior) (now : String)
    (ep : RemoteProduct) (m : List (String × RemoteVariant))
    (hval : validate_product_data product = true)
    (hscan : scanExisting existing (product_skus (product.variants.getD [])) = some (ep, m)) :
    process_product product existing net now = reconcile_existing product ep m net now := by
  unfold process_product
  rw [hval, hscan]
  rfl

lemma process_product_eq_new (product : LocalProduct)
    (existing : List RemoteProduct) (net : NetBehavior) (now : String)
    (hval : validate_product_data product = true)
    (hscan : scanExisting existing (product_skus (product.variants.getD [])) = none) :
    process_product product existing net now = reconcile_new product net now := by
  unfold process_product
  rw [hval, hscan]
  rfl

lemma inventory_updates_for_mem {vs : List LocalVariant}
    {m : List (String × RemoteVariant)} {u : ℕ × ℕ}
    (hu : u ∈ inventory_updates_for vs m) :
    ∃ v ∈ vs, ∃ s rv, v.sku = some s ∧ (s, rv) ∈ m ∧
      u = (rv.inventory_item_id, if availTruthy v then INVENTORY_DEFAULT else 0) := by
  rcases List.mem_filterMap.1 hu with ⟨v, hv, hf⟩
  cases hsku : v.sku with
  | none =>
    rw [hsku] at hf
    simp at hf
  | some s =>
    rw [hsku] at hf
    simp only [Option.some_bind, Option.map_eq_some'] at hf
    obtain ⟨rv, hg, hgu⟩ := hf
    exact ⟨v, hv, s, rv, hsku, dictGet_some_mem hg, hgu.symm⟩

/-- C3 amended: for a valid LocalProduct matched to a remote counterpart
with at least one local variant having no remote counterpart on that chosen
product, process_product issues at most the one bulk-inventory call (zero
product-level create or update calls), every issued inventory entry comes
from a matched local/remote variant pair, and the returned flag is False —
the plain failure value; the code reifies no distinct skipped outcome. -/
theorem process_product_new_variant_amended
    (product : LocalProduct) (existing : List RemoteProduct)
    (net : NetBehavior) (now : String)
    (ep : RemoteProduct) (m : List (String × RemoteVariant))
    (hval : validate_product_data product = true)
    (hscan : scanExisting existing (product_skus (product.variants.getD [])) = some (ep, m))
    (hunm : ∃ v ∈ product.variants.getD [], ∃ s, v.sku = some s ∧
      ∀ rv ∈ ep.variants, rv.sku ≠ some s) :
    (process_product product existing net now).1 = false ∧
    (∀ c ∈ (process_product product existing net now).2, isBulkCall c = true) ∧
    (∀ us, ApiCall.bulkInventory us ∈ (process_product product existing net now).2 →
      ∀ u ∈ us, ∃ v ∈ product.variants.getD [], ∃ s rv, v.sku = some s ∧
        rv ∈ ep.variants ∧ rv.sku = some s ∧
        u = (rv.inventory_item_id, if availTruthy v then INVENTORY_DEFAULT else 0)) := by
  obtain ⟨v0, hv0, s0, hs0, hno⟩ := hunm
  have hm := scanExisting_eq_some existing hscan
  have hlen : m.length < (product.variants.getD []).length := by
    rw [hm]
    exact variant_map_length_lt _ _ v0 s0 hv0 hs0 hno
  have hlenne : ¬ m.length = (product.variants.getD []).length := Nat.ne_of_lt hlen
  have hbulkcase :
      ∀ u ∈ inventory_updates_for (product.variants.getD []) m,
        ∃ v ∈ product.variants.getD [], ∃ s rv, v.sku = some s ∧
          rv ∈ ep.variants ∧ rv.sku = some s ∧
          u = (rv.inventory_item_id, if availTruthy v then INVENTORY_DEFAULT else 0) := by
    intro u hu
    obtain ⟨v, hv, s, rv, hsku2, hmem, hu_eq⟩ := inventory_updates_for_mem hu
    rw [hm] at hmem
    have hp := collectMap_entries hmem
    exact ⟨v, hv, s, rv, hsku2, hp.2.1, hp.2.2, hu_eq⟩
  rw [process_product_eq_existing product existing net now ep m hval hscan]
  unfold reconcile_existing
  by_cases hemp : (inventory_updates_for (product.variants.getD []) m).isEmpty = true
  · rw [if_pos hemp, if_neg hlenne]
    refine ⟨rfl, fun c hc => ?_, fun us hus => ?_⟩
    · simp at hc
    · simp at hus
  · rw [if_neg hemp]
    have hshape : ∀ hres :
        (false, [ApiCall.bulkInventory (inventory_updates_for (product.variants.getD []) m)])
          = (false, [ApiCall.bulkInventory (inventory_updates_for (product.variants.getD []) m)]),
        ((false : Bool),
          [ApiCall.bulkInventory (inventory_updates_for (product.variants.getD []) m)]).1
            = false ∧
        (∀ c ∈ ((false : Bool),
            [ApiCall.bulkInventory (inventory_updates_for (product.variants.getD []) m)]).2,
          isBulkCall c = true) ∧
        (∀ us, ApiCall.bulkInventory us ∈ ((false : Bool),
            [ApiCall.bulkInventory (inventory_updates_for (product.variants.getD []) m)]).2 →
          ∀ u ∈ us, ∃ v ∈ product.variants.getD [], ∃ s rv, v.sku = some s ∧
            rv ∈ ep.variants ∧ rv.sku = some s ∧
            u = (rv.inventory_item_id, if availTruthy v then INVENTORY_DEFAULT else 0)) := by
      intro _
      refine ⟨rfl, fun c hc => ?_, fun us hus u hu => ?_⟩
      · rw [List.mem_singleton] at hc
        subst hc
        rfl
      · rw [List.mem_singleton] at hus
        have husid : us = inventory_updates_for (product.variants.getD []) m := by
          injection hus
        subst husid
        exact hbulkcase u hu
    by_cases hbulk : net.bulkOk = true
    · rw [if_pos hbulk, if_neg hlenne]
      exact hshape rfl
    · rw [if_neg hbulk]
      exact hshape rfl

def w3_product : LocalProduct :=
  ⟨some "W", some [⟨some "A", some (.inl "5.00"), some (.bool true)⟩,
                   ⟨some "B", some (.inl "6.00"), some (.bool false)⟩], none⟩

def w3_remote : List RemoteProduct := [⟨3, [⟨some "A", 11⟩]⟩]

def w3_net : NetBehavior := ⟨true, true, none⟩

theorem process_product_new_variant_amended_witness :
    (process_product w3_product w3_remote w3_net "T").1 = false :=
  (process_product_new_variant_amended w3_product w3_remote w3_net "T"
    ⟨3, [⟨some "A", 11⟩]⟩ [("A", ⟨some "A", 11⟩)] (by decide) (by decide)
    ⟨⟨some "B", some (.inl "6.00"), some (.bool false)⟩, by decide, "B", rfl, by decide⟩).1

/-- C3 counterexample: on a valid product (variants A and B, only A matched
remotely) the code issues the single bulk-inventory call for the matched
subset and no product-level call — but its result is the plain boolean
False, the very value returned for a failed product (here: an invalid one);
no skipped("new-variant-requires-manual-merge") outcome exists in the code,
refuting the claim that the result is a skipped value rather than a
failure. -/
theorem process_product_skipped_counterexample :
    (process_product w3_product w3_remote w3_net "T").2 =
      [ApiCall.bulkInventory [(11, 1000)]] ∧
    (process_product w3_product w3_remote w3_net "T").1 = false ∧
    (process_product ⟨none, none, none⟩ w3_remote w3_net "T").1 = false := by
  decide

/-- C5 amended: for a valid LocalProduct with no remote counterpart:
with no available variant it returns False immediately with zero network
calls; otherwise it issues exactly one create call, and the follow-up
publish update depends on the create outcome: when the create fails the
result is False and no follow-up is issued (even if the publish timestamp
was absent); when the create succeeds the result is True and exactly one
follow-up update (carrying the new id and the current time) is issued if
and only if the local record lacked a published_at key. -/
theorem process_product_create_amended
    (product : LocalProduct) (existing : List RemoteProduct)
    (net : NetBehavior) (now : String)
    (hval : validate_product_data product = true)
    (hscan : scanExisting existing (product_skus (product.variants.getD [])) = none) :
    ((product.variants.getD []).any availTruthy = false →
      process_product product existing net now = (false, [])) ∧
    ((product.variants.getD []).any availTruthy = true →
      ((process_product product existing net now).2.countP isCreateCall = 1 ∧
       (net.postResult = none →
         (process_product product existing net now).1 = false ∧
         (process_product product existing net now).2.countP isUpdateCall = 0) ∧
       ∀ newId, net.postResult = some newId →
         (process_product product existing net now).1 = true ∧
         (product.published_at = none →
           (process_product product existing net now).2 =
             [ApiCall.createProduct (build_product_payload_m product now),
              ApiCall.updateProduct newId ⟨some newId, none, some now⟩]) ∧
         (product.published_at ≠ none →
           (process_product product existing net now).2.countP isUpdateCall = 0))) := by
  rw [process_product_eq_new product existing net now hval hscan]
  unfold reconcile_new
  constructor
  · intro hav
    rw [if_pos hav]
  · intro hav
    rw [if_neg (by simp [hav])]
    cases hpost : net.postResult with
    | none =>
      refine ⟨?_, fun _ => ⟨rfl, ?_⟩, fun newId hId => ?_⟩
      · simp [List.countP_cons, isCreateCall]
      · simp [List.countP_cons, isUpdateCall]
      · exact absurd hId (by simp)
    | some newId0 =>
      by_cases hpub : product.published_at = none
      · refine ⟨?_, fun hnone => ?_, fun newId hId => ?_⟩
        · simp [hpub, List.countP_cons, isCreateCall, isUpdateCall]
        · exact absurd hnone (by simp)
        · have he : newId0 = newId := Option.some.inj hId
          subst he
          exact ⟨by simp [hpub], fun _ => by simp [hpub], fun hne => absurd hpub hne⟩
      · refine ⟨?_, fun hnone => ?_, fun newId hId => ?_⟩
        · simp [hpub, List.countP_cons, isCreateCall]
        · exact absurd hnone (by simp)
        · have he : newId0 = newId := Option.some.inj hId
          subst he
          refine ⟨by simp [hpub], fun hn => absurd hn hpub, fun _ => ?_⟩
          simp [hpub, List.countP_cons, isUpdateCall, isCreateCall]

def w5_product : LocalProduct :=
  ⟨some "Tee", some [⟨some "A", some (.inl "10.00"), some (.bool true)⟩], none⟩

def w5_net : NetBehavior := ⟨true, true, some 9⟩

theorem process_product_create_amended_witness :
    (process_product w5_product [] w5_net "2024-05-01T00:00:00").2 =
      [ApiCall.createProduct (build_product_payload_m w5_product "2024-05-01T00:00:00"),
       ApiCall.updateProduct 9 ⟨some 9, none, some "2024-05-01T00:00:00"⟩] :=
  (((process_product_create_amended w5_product [] w5_net "2024-05-01T00:00:00"
      (by decide) rfl).2 (by decide)).2.2 9 rfl).2.1 rfl

/-- C5 counterexample: a valid product lacking a publish timestamp, with no
remote counterpart and an available variant, whose create call fails: the
code issues the one create call but zero follow-up updates and returns
False, refuting the claim that a follow-up publish update is issued
whenever (if and only if) the local record lacked a publish timestamp. -/
theorem process_product_create_failure_counterexample :
    w5_product.published_at = none ∧
    (process_product w5_product [] ⟨true, true, none⟩ "T").2.countP isCreateCall = 1 ∧
    (process_product w5_product [] ⟨true, true, none⟩ "T").2.countP isUpdateCall = 0 ∧
    (process_product w5_product [] ⟨true, true, none⟩ "T").1 = false := by
  decide
